import Mathlib

/-!
# Verification of the parcel KML / Shapefile encoding subsystem

A shallow embedding, in Lean 4, of the feature-to-file encoding helpers of
`kml_utils.py` (the functions `_hex_to_kml_color`, `_write_ring`,
`generate_kml` and `generate_shapefile`), together with theorems settling
the specification's claims about them.

Modelling conventions:
* Python `float` opacities are modelled as rationals (`ℚ`); the code only
  multiplies by 255 and truncates, and every value the claims touch is
  exactly representable.
* GeoJSON coordinate positions are modelled as `List ℚ` (the code
  destructures each position into exactly two components, which can fail).
* Python exceptions are modelled with `Option`: a function that can raise
  returns `none` on the raising inputs.
* Python `dict` property bags are association lists with string values;
  `dict.get` is a lookup returning `Option`.
* `_write_ring` mutates its `ring` argument in place (`ring.append(...)`);
  the embedding passes the ring state explicitly and returns the ring's
  value after the call alongside the buffer.
-/

namespace KmlUtils

/-! ## Python primitives used by the source -/

/-- Python's lowercase hexadecimal digit for `n < 16` (as used by `"%x"`). -/
def hexDigitChar (n : Nat) : Char :=
  if n < 10 then Char.ofNat (48 + n) else Char.ofNat (97 + (n - 10))

/-- Auxiliary digit accumulator for hexadecimal rendering; `fuel` bounds the
number of divisions by 16 (any `fuel ≥ n` is enough). -/
def natToHexAux : Nat → Nat → List Char → List Char
  | 0, _, acc => acc
  | _ + 1, 0, acc => acc
  | fuel + 1, n, acc => natToHexAux fuel (n / 16) (hexDigitChar (n % 16) :: acc)

/-- Lowercase hexadecimal rendering of a natural number, no padding
(Python `"%x" % n`). -/
def natToHex (n : Nat) : String :=
  if n = 0 then "0" else String.mk (natToHexAux n n [])

/-- Python `f"{z:02x}"` for an `int` value `z`: lowercase hex, zero-padded to
a minimum total width of 2; a negative value is rendered as a minus sign
followed by the hex digits of its absolute value. -/
def fmt02x (z : ℤ) : String :=
  if z < 0 then
    "-" ++ natToHex z.natAbs
  else
    let s := natToHex z.toNat
    if s.length < 2 then "0" ++ s else s

/-- Python `int(q)` on a number: truncation toward zero
(`Int.tdiv` is T-division). -/
def pyIntOfRat (q : ℚ) : ℤ :=
  q.num.tdiv q.den

/-- Effect of a Python `for` loop that transforms each element and raises on
a bad one: all results in order, or `none` at the first failure. -/
def mapMO {α β : Type} (f : α → Option β) : List α → Option (List β)
  | [] => some []
  | a :: as => do
    let b ← f a
    let bs ← mapMO f as
    pure (b :: bs)

/-- Python `s.lstrip("#")`: drop every leading `#`. -/
def lstripHash (s : String) : String :=
  String.mk (s.toList.dropWhile (· = '#'))

/-- Python string slicing `s[a:b]` (character positions, clamped). -/
def pySlice (s : String) (a b : Nat) : String :=
  String.mk ((s.toList.drop a).take (b - a))

/-! ## `_hex_to_kml_color` -/

/-- The length-6 colour string actually sliced by `_hex_to_kml_color`:
the input after `lstrip("#")`, replaced by `"FFFFFF"` when its length
is not 6.  (`kml_utils.py` lines 43–45.) -/
def colorBody (hexColor : String) : String :=
  let h := lstripHash hexColor
  if h.length ≠ 6 then "FFFFFF" else h

/-- The `b ++ g ++ r` portion of `_hex_to_kml_color`'s output: the three
two-character slices of the colour body, concatenated in reversed group
order exactly as in `f"{alpha:02x}{b}{g}{r}"`. -/
def rgbPart (hexColor : String) : String :=
  let h := colorBody hexColor
  pySlice h 4 6 ++ pySlice h 2 4 ++ pySlice h 0 2

/-- The function `_hex_to_kml_color(hex_color, opacity)` (`kml_utils.py` lines 32–48):
strip leading `#`s, fall back to `"FFFFFF"` when the remainder is not
6 characters long, compute `alpha = int(opacity * 255)` and return
`f"{alpha:02x}{b}{g}{r}"`. -/
def hexToKmlColor (hexColor : String) (opacity : ℚ) : String :=
  let alpha := pyIntOfRat (opacity * 255)
  fmt02x alpha ++ rgbPart hexColor

/-! ## Data model: GeoJSON features -/

/-- A GeoJSON coordinate position: a list of numeric components.  The code
destructures each position as `for x, y in ring`, which requires exactly two
components. -/
abbrev Coord := List ℚ

/-- A linear ring: an ordered sequence of coordinate positions. -/
abbrev Ring := List Coord

/-- A feature's `geometry` member as the code inspects it: `geom.get("type")`
selects the branch, `geom.get("coordinates")` carries the rings.  Any other
`type` value (or a missing geometry) behaves uniformly and is `other`. -/
inductive Geometry where
  | polygon : List Ring → Geometry
  | multiPolygon : List (List Ring) → Geometry
  | other : Geometry
deriving DecidableEq

/-- A GeoJSON feature as consumed by the encoders: a property bag
(string-keyed association list, unique keys, scalar values rendered as
strings) and a geometry. -/
structure Feature where
  properties : List (String × String)
  geometry : Geometry
deriving DecidableEq

/-- Python `p.get(k)` on a dict: `some` value when the key is present,
`none` (Python `None`) otherwise. -/
def pyGet (p : List (String × String)) (k : String) : Option String :=
  (p.find? (fun kv => kv.1 = k)).map (fun kv => kv.2)

/-- Python `p.get(k, "")`: lookup with default `""`. -/
def pyGetD (p : List (String × String)) (k : String) : String :=
  (pyGet p k).getD ""

/-- Python f-string interpolation of a value that may be `None`:
`f"{v}"` renders `None` as the text `"None"`. -/
def fmtPyOpt : Option String → String
  | none => "None"
  | some s => s

/-- The expansion of one character under Python `html.escape` (default
`quote=True`): `&`, `<`, `>`, `"` and `'` become entities. -/
def escapeChar : Char → List Char
  | '&' => "&amp;".toList
  | '<' => "&lt;".toList
  | '>' => "&gt;".toList
  | '\x22' => "&quot;".toList
  | '\x27' => "&#x27;".toList
  | c => [c]

/-- Python `html.escape(s)` (default `quote=True`).  CPython performs five
sequential `str.replace` calls, ampersand first; none of the five patterns
occurs in an earlier replacement's output, so the sequence equals this single
character-wise expansion. -/
def htmlEscape (s : String) : String :=
  String.mk ((s.toList.map escapeChar).flatten)

/-! ## `_write_ring` and ring closing -/

/-- One line of `<coordinates>` content: `f"              {x},{y},0"`.
The destructuring `for x, y in ring` raises unless the position has exactly
two components, so any other shape is `none`. -/
def coordLine (c : Coord) : Option String :=
  match c with
  | [x, y] => some ("              " ++ toString x ++ "," ++ toString y ++ ",0")
  | _ => none

/-- The pure value of a ring after `_write_ring`'s closing step
`if ring[0] != ring[-1]: ring.append(ring[0])`, for non-empty rings
(the empty ring raises before reaching this point and is given the
vacuous value `[]` here). -/
def closeRing : Ring → Ring
  | [] => []
  | a :: rest => if rest.getLastD a = a then a :: rest else (a :: rest) ++ [a]

/-- The function `_write_ring(buf, ring)` (`kml_utils.py` lines 143–149).  The Python
function mutates both arguments in place; the embedding returns the final
buffer together with the final value of the caller's `ring` list.  `none`
models the exceptions: `ring[0]` on an empty ring, and the `for x, y in
ring` destructuring on a position without exactly two components. -/
def writeRing (buf : List String) (ring : Ring) : Option (List String × Ring) :=
  match ring with
  | [] => none
  | a :: rest =>
    let ring' := if rest.getLastD a = a then a :: rest else (a :: rest) ++ [a]
    match mapMO coordLine ring' with
    | none => none
    | some ls =>
      some (buf ++ ["            <coordinates>"] ++ ls ++ ["            </coordinates>"], ring')

/-- The lines `_write_ring` appends to the buffer (the buffer passes through
`_write_ring` purely by appending, so the block is buffer-independent). -/
def ringLines (ring : Ring) : Option (List String) :=
  (writeRing [] ring).map (fun r => r.1)

/-! ## `generate_kml` -/

/-- A hole's `<innerBoundaryIs>` block (`kml_utils.py` lines 128–131). -/
def holeLines (hole : Ring) : Option (List String) := do
  let rl ← ringLines hole
  pure (["          <innerBoundaryIs><LinearRing>"] ++ rl ++
        ["          </LinearRing></innerBoundaryIs>"])

/-- One `<Polygon>` block (`kml_utils.py` lines 123–132): outer boundary from
`poly[0]` (raises when the polygon has no rings), holes from `poly[1:]`. -/
def polygonLines (poly : List Ring) : Option (List String) :=
  match poly with
  | [] => none
  | outer :: holes => do
    let ol ← ringLines outer
    let hs ← mapMO holeLines holes
    pure (["        <Polygon>", "          <outerBoundaryIs><LinearRing>"] ++ ol ++
          ["          </LinearRing></outerBoundaryIs>"] ++ hs.flatten ++
          ["        </Polygon>"])

/-- The polygon list of a geometry (`kml_utils.py` lines 115–118):
`[coordinates]` for `Polygon`, `coordinates` for `MultiPolygon`, `[]`
otherwise. -/
def featPolygons : Geometry → List (List Ring)
  | .polygon rings => [rings]
  | .multiPolygon ps => ps
  | .other => []

/-- The geometry block of one placemark (`kml_utils.py` lines 115–135):
the polygon blocks, wrapped in `<MultiGeometry>` when there is more than one
polygon. -/
def geometryLines (geom : Geometry) : Option (List String) := do
  let polys := featPolygons geom
  let pls ← mapMO polygonLines polys
  if polys.length > 1 then
    pure (["      <MultiGeometry>"] ++ pls.flatten ++ ["      </MultiGeometry>"])
  else
    pure pls.flatten

/-- The placemark display name (`kml_utils.py` lines 91–98).  QLD:
`f"Lot {lot} Plan {plan}"` from `p.get("lot")` and `p.get("plan")` (no
defaults, so a missing key renders as `None`); otherwise the NSW branch with
`p.get("sectionnumber") or ""` for the section. -/
def featureName (region : String) (p : List (String × String)) : String :=
  if region = "QLD" then
    "Lot " ++ fmtPyOpt (pyGet p "lot") ++ " Plan " ++ fmtPyOpt (pyGet p "plan")
  else
    let sec := pyGetD p "sectionnumber"
    "Lot " ++ fmtPyOpt (pyGet p "lotnumber") ++ " " ++
      (if sec ≠ "" then "Section " ++ sec ++ " " else "") ++
      fmtPyOpt (pyGet p "planlabel")

/-- The pop-up table rows (`kml_utils.py` lines 101–105): one
`<tr><th>k</th><td>v</td></tr>` per property whose value is not empty
(`v not in ("", None)`; values are strings in this model). -/
def descRows (p : List (String × String)) : String :=
  String.join ((p.filter (fun kv => kv.2 ≠ "")).map
    (fun kv => "<tr><th>" ++ htmlEscape kv.1 ++ "</th><td>" ++ htmlEscape kv.2 ++
               "</td></tr>"))

/-- The lines of one `<Placemark>` element (`kml_utils.py` lines 89–137). -/
def placemarkLines (region : String) (feat : Feature) : Option (List String) := do
  let p := feat.properties
  let name := featureName region p
  let description := "<![CDATA[<table>" ++ descRows p ++ "</table>]]>"
  let gl ← geometryLines feat.geometry
  pure (["    <Placemark>",
         "      <name>" ++ htmlEscape name ++ "</name>",
         "      <styleUrl>#parcel</styleUrl>",
         "      <description>" ++ description ++ "</description>"] ++ gl ++
        ["    </Placemark>"])

/-- The fixed document header of `generate_kml` (`kml_utils.py` lines 79–87):
XML declaration, `<kml>` root, `<Document>` with the escaped folder name, and
the single shared style block with id `"parcel"`. -/
def kmlHeader (fillKml outKml : String) (outlineWeight : ℤ) (folderName : String) :
    List String :=
  ["<?xml version=\x221.0\x22 encoding=\x22UTF-8\x22?>",
   "<kml xmlns=\x27http://www.opengis.net/kml/2.2\x27>",
   "  <Document><name>" ++ htmlEscape folderName ++ "</name>",
   "    <Style id=\x22parcel\x22>",
   "      <LineStyle><color>" ++ outKml ++ "</color><width>" ++
     toString outlineWeight ++ "</width></LineStyle>",
   "      <PolyStyle><color>" ++ fillKml ++ "</color></PolyStyle>",
   "    </Style>"]

/-- The line list built by `generate_kml` (`kml_utils.py` lines 52–139):
header, one placemark block per feature in order, then the closing line. -/
def generateKmlLines (features : List Feature) (region : String)
    (fillHex : String) (fillOpacity : ℚ) (outlineHex : String)
    (outlineWeight : ℤ) (folderName : String) : Option (List String) := do
  let fillKml := hexToKmlColor fillHex fillOpacity
  let outKml := hexToKmlColor outlineHex 1
  let pls ← mapMO (placemarkLines region) features
  pure (kmlHeader fillKml outKml outlineWeight folderName ++ pls.flatten ++
        ["  </Document></kml>"])

/-- The result of `generate_kml(...)`: the line list joined with `"\n"`
(`kml_utils.py` line 140); `none` models a raised exception. -/
def generateKml (features : List Feature) (region : String)
    (fillHex : String) (fillOpacity : ℚ) (outlineHex : String)
    (outlineWeight : ℤ) (folderName : String) : Option String :=
  (generateKmlLines features region fillHex fillOpacity outlineHex
      outlineWeight folderName).map (fun ls => String.intercalate "\n" ls)

/-! ## `generate_shapefile` -/

/-- Python `s.replace(old, new)` for a single-character pattern, as in the
two sanitising calls `base_name.replace("/", "_").replace(" ", "_")`:
every occurrence of the character is replaced. -/
def pyReplaceChar (s : String) (old new : Char) : String :=
  String.mk (s.toList.map (fun c => if c = old then new else c))

/-- The sanitised base name (`kml_utils.py` line 172):
`base_name.replace("/", "_").replace(" ", "_") or "parcels"` — the default
applies exactly when the replaced string is empty. -/
def sanitizeBase (baseName : String) : String :=
  let s := pyReplaceChar (pyReplaceChar baseName '/' '_') ' ' '_'
  if s = "" then "parcels" else s

/-- One attribute record `(LOT, SEC, PLAN)` (`kml_utils.py` lines 181–188):
QLD uses `p.get("lot", "")`, `""`, `p.get("plan", "")`; otherwise the NSW
keys, all defaulting to `""`. -/
def shpRecord (region : String) (p : List (String × String)) :
    String × String × String :=
  if region = "QLD" then (pyGetD p "lot", "", pyGetD p "plan")
  else (pyGetD p "lotnumber", pyGetD p "sectionnumber", pyGetD p "planlabel")

/-- The `parts` list passed to `w.poly` for one feature
(`kml_utils.py` lines 190–201): the ring list of a `Polygon`, the rings of
all polygons flattened for a `MultiPolygon`, `[]` otherwise. -/
def shapeParts : Geometry → List Ring
  | .polygon rings => rings
  | .multiPolygon ps => ps.flatten
  | .other => []

/-- The observable output of `generate_shapefile`
(`kml_utils.py` lines 153–219): the zip entry names in the order they are
written, the attribute records in feature order, and the parts lists handed
to `w.poly` (written only when non-empty: `if parts: w.poly(parts)`).
The binary rendering of the SHP/SHX/DBF payloads is produced by the external
`pyshp` writer and is outside the embedding. -/
structure ShpResult where
  entries : List String
  records : List (String × String × String)
  shapes : List (List Ring)
deriving DecidableEq

/-- The function `generate_shapefile(features, region, base_name)`. -/
def generateShapefile (features : List Feature) (region : String)
    (baseName : String) : ShpResult :=
  let safe := sanitizeBase baseName
  { entries := [safe ++ ".shp", safe ++ ".shx", safe ++ ".dbf", safe ++ ".prj"]
    records := features.map (fun f => shpRecord region f.properties)
    shapes := (features.map (fun f => shapeParts f.geometry)).filter
      (fun parts => parts ≠ []) }

/-! ## Specification-side vocabulary -/

/-- A lowercase hexadecimal digit, the character class `[0-9a-f]` of the
spec's output pattern. -/
def isLowerHexChar (c : Char) : Bool :=
  (('0' ≤ c) && (c ≤ '9')) || (('a' ≤ c) && (c ≤ 'f'))

/-- Classification of the lines `_write_ring` and the hole markers can
produce inside a `<Polygon>` element: boundary markers, the
`<coordinates>` delimiters, or a 14-space-indented coordinate line. -/
def innerLine (l : String) : Prop :=
  l = "          <outerBoundaryIs><LinearRing>" ∨
  l = "          </LinearRing></outerBoundaryIs>" ∨
  l = "          <innerBoundaryIs><LinearRing>" ∨
  l = "          </LinearRing></innerBoundaryIs>" ∨
  l = "            <coordinates>" ∨
  l = "            </coordinates>" ∨
  ∃ x, l = "              " ++ x

/-- The ring-shape precondition exactly as the claim states it: every ring
of the geometry is non-empty and made of exactly-2-component positions.
(It says nothing about polygons with no rings at all.) -/
def ringsOk (g : Geometry) : Prop :=
  ∀ poly ∈ featPolygons g, ∀ r ∈ poly, r ≠ [] ∧ ∀ c ∈ r, c.length = 2

/-! ## Colour-converter lemmas -/

theorem pyIntOfRat_eq (q : ℚ) (n : ℤ) (d : ℕ) (hn : q.num = n) (hd : q.den = d) :
    pyIntOfRat q = n.tdiv d := by
  rw [pyIntOfRat, hn, hd]

theorem alpha_half : pyIntOfRat ((1 / 2 : ℚ) * 255) = 127 := by
  rw [pyIntOfRat_eq ((1 / 2 : ℚ) * 255) 255 2 (by norm_num) (by norm_num)]
  decide

theorem alpha_one : pyIntOfRat ((1 : ℚ) * 255) = 255 := by
  rw [pyIntOfRat_eq ((1 : ℚ) * 255) 255 1 (by norm_num) (by norm_num)]
  decide

theorem alpha_two : pyIntOfRat ((2 : ℚ) * 255) = 510 := by
  rw [pyIntOfRat_eq ((2 : ℚ) * 255) 510 1 (by norm_num) (by norm_num)]
  decide

set_option maxRecDepth 10000 in
theorem fmt02x_fin : ∀ n : Fin 256,
    (fmt02x (n.val : ℤ)).toList.length = 2 ∧
    (fmt02x (n.val : ℤ)).toList.all isLowerHexChar = true := by
  decide

theorem fmt02x_bounds {z : ℤ} (h0 : 0 ≤ z) (h1 : z ≤ 255) :
    (fmt02x z).toList.length = 2 ∧ (fmt02x z).toList.all isLowerHexChar = true := by
  have hz : ((z.toNat : ℕ) : ℤ) = z := Int.toNat_of_nonneg h0
  have hlt : z.toNat < 256 := by omega
  have h := fmt02x_fin ⟨z.toNat, hlt⟩
  rwa [show (((⟨z.toNat, hlt⟩ : Fin 256).val : ℕ) : ℤ) = z from hz] at h

theorem alpha_bounds {op : ℚ} (h0 : 0 ≤ op) (h1 : op ≤ 1) :
    0 ≤ pyIntOfRat (op * 255) ∧ pyIntOfRat (op * 255) ≤ 255 := by
  have hq0 : 0 ≤ op * 255 := by nlinarith
  have hq255 : op * 255 ≤ 255 := by nlinarith
  have hnum0 : 0 ≤ (op * 255).num := Rat.num_nonneg.mpr hq0
  have hden : (0 : ℤ) < ((op * 255).den : ℤ) := by
    exact_mod_cast (op * 255).pos
  constructor
  · exact Int.tdiv_nonneg hnum0 (le_of_lt hden)
  · have hnum : (op * 255).num ≤ 255 * ((op * 255).den : ℤ) := by
      have h := Rat.le_def.mp hq255
      simpa using h
    rw [pyIntOfRat, Int.tdiv_eq_ediv hnum0 (le_of_lt hden)]
    calc (op * 255).num / ((op * 255).den : ℤ)
        ≤ 255 * ((op * 255).den : ℤ) / ((op * 255).den : ℤ) :=
          Int.ediv_le_ediv hden hnum
      _ = 255 := Int.mul_ediv_cancel 255 (by omega)

theorem toList_append (x y : String) : (x ++ y).toList = x.toList ++ y.toList :=
  String.data_append x y

theorem colorBody_eq_of_len6 {s : String} (h : (lstripHash s).toList.length = 6) :
    colorBody s = lstripHash s := by
  show (if (lstripHash s).length ≠ 6 then "FFFFFF" else lstripHash s) = lstripHash s
  exact if_neg (fun hne => hne h)

theorem colorBody_eq_fallback {s : String} (h : (lstripHash s).toList.length ≠ 6) :
    colorBody s = "FFFFFF" := by
  show (if (lstripHash s).length ≠ 6 then "FFFFFF" else lstripHash s) = "FFFFFF"
  exact if_pos h

theorem colorBody_length (s : String) : (colorBody s).toList.length = 6 := by
  by_cases h : (lstripHash s).toList.length = 6
  · rw [colorBody_eq_of_len6 h]; exact h
  · rw [colorBody_eq_fallback h]; decide

theorem rgbPart_eq (s : String) :
    rgbPart s = pySlice (colorBody s) 4 6 ++ pySlice (colorBody s) 2 4 ++
      pySlice (colorBody s) 0 2 := rfl

theorem rgbPart_length (s : String) : (rgbPart s).toList.length = 6 := by
  have h : (colorBody s).toList.length = 6 := colorBody_length s
  rw [rgbPart_eq, toList_append, toList_append]
  simp only [pySlice, String.toList, List.length_append, List.length_take,
    List.length_drop] at h ⊢
  omega

theorem rgbPart_chars {s : String} {c : Char} (h : c ∈ (rgbPart s).toList) :
    c ∈ (colorBody s).toList := by
  rw [rgbPart_eq, toList_append, toList_append] at h
  simp only [List.mem_append] at h
  rcases h with (h | h) | h <;>
    exact List.drop_subset _ _ (List.take_subset _ _ h)

theorem hexToKmlColor_eq (s : String) (op : ℚ) :
    hexToKmlColor s op = fmt02x (pyIntOfRat (op * 255)) ++ rgbPart s := rfl

/-- C3 counterexample: the code does not lowercase the RGB portion.  For the
spec's own example input `("#FF0000", 0.5)` the output is `"7f0000FF"`, which
differs from the claimed `"7f0000ff"` and does not match `[0-9a-f]{8}`. -/
theorem hexToKmlColor_preserves_case :
    hexToKmlColor "#FF0000" (1 / 2) = "7f0000FF" ∧
    hexToKmlColor "#FF0000" (1 / 2) ≠ "7f0000ff" ∧
    ¬ (hexToKmlColor "#FF0000" (1 / 2)).toList.all isLowerHexChar = true := by
  have h : hexToKmlColor "#FF0000" (1 / 2) = fmt02x 127 ++ rgbPart "#FF0000" := by
    rw [hexToKmlColor_eq, alpha_half]
  rw [h]
  exact ⟨by decide, by decide, by decide⟩

/-- C3 (amended): for a colour string that is, after stripping leading `#`s,
exactly 6 *lowercase* hex digits, and an opacity in `[0,1]`, the output is an
8-character string matching `[0-9a-f]{8}`, laid out as
`alpha ++ B ++ G ++ R`; and `toKmlColor("#ff0000", 0.5) = "7f0000ff"`.
(The code copies the R, G, B slices verbatim, so only the alpha part is
guaranteed lowercase; uppercase input digits survive in the output.) -/
theorem hexToKmlColor_valid_layout (s : String) (op : ℚ) (h0 : 0 ≤ op)
    (h1 : op ≤ 1) (hlen : (lstripHash s).toList.length = 6)
    (hhex : ∀ c ∈ (lstripHash s).toList, isLowerHexChar c = true) :
    (hexToKmlColor s op).toList.length = 8 ∧
    (hexToKmlColor s op).toList.all isLowerHexChar = true ∧
    hexToKmlColor s op =
      fmt02x (pyIntOfRat (op * 255)) ++
        (pySlice (lstripHash s) 4 6 ++ pySlice (lstripHash s) 2 4 ++
          pySlice (lstripHash s) 0 2) ∧
    hexToKmlColor "#ff0000" (1 / 2) = "7f0000ff" := by
  obtain ⟨ha0, ha255⟩ := alpha_bounds h0 h1
  obtain ⟨hflen, hfhex⟩ := fmt02x_bounds ha0 ha255
  have hbody := colorBody_eq_of_len6 hlen
  refine ⟨?_, ?_, ?_, ?_⟩
  · rw [hexToKmlColor_eq, toList_append, List.length_append, hflen,
      rgbPart_length]
  · rw [hexToKmlColor_eq, toList_append, List.all_append, hfhex,
      Bool.true_and, List.all_eq_true]
    intro c hc
    exact hhex c (hbody ▸ rgbPart_chars hc)
  · rw [hexToKmlColor_eq, rgbPart_eq, hbody]
  · have h : hexToKmlColor "#ff0000" (1 / 2) = fmt02x 127 ++ rgbPart "#ff0000" := by
      rw [hexToKmlColor_eq, alpha_half]
    rw [h]; decide

/-- C3 witness: the amended theorem applied at `("#ff0000", 0.5)`. -/
theorem hexToKmlColor_valid_layout_witness :
    (hexToKmlColor "#ff0000" (1 / 2)).toList.length = 8 ∧
    (hexToKmlColor "#ff0000" (1 / 2)).toList.all isLowerHexChar = true :=
  ⟨(hexToKmlColor_valid_layout "#ff0000" (1 / 2) (by norm_num) (by norm_num)
      (by decide) (by decide)).1,
   (hexToKmlColor_valid_layout "#ff0000" (1 / 2) (by norm_num) (by norm_num)
      (by decide) (by decide)).2.1⟩

/-- C4 counterexample: a 6-character input made of non-hex characters is
*not* replaced by `FFFFFF` — the length check is the only validation, so
`"zzzzzz"` passes straight through into the output. -/
theorem hexToKmlColor_nonhex_passthrough :
    hexToKmlColor "zzzzzz" (1 / 2) = "7fzzzzzz" ∧
    rgbPart "zzzzzz" = "zzzzzz" ∧ ("zzzzzz" : String) ≠ "FFFFFF" := by
  have h : hexToKmlColor "zzzzzz" (1 / 2) = fmt02x 127 ++ rgbPart "zzzzzz" := by
    rw [hexToKmlColor_eq, alpha_half]
  exact ⟨by rw [h]; decide, by decide, by decide⟩

/-- C4 (amended): the fallback `FFFFFF` is substituted exactly when the
input, after stripping leading `#`s, does not have length 6 — regardless of
whether the characters are hex digits — and the function never fails (it is
total by construction). -/
theorem hexToKmlColor_fallback (s : String) (op : ℚ)
    (h : (lstripHash s).toList.length ≠ 6) :
    hexToKmlColor s op = fmt02x (pyIntOfRat (op * 255)) ++ "FFFFFF" ∧
    rgbPart s = "FFFFFF" := by
  have hb := colorBody_eq_fallback h
  have hr : rgbPart s = "FFFFFF" := by rw [rgbPart_eq, hb]; decide
  exact ⟨by rw [hexToKmlColor_eq, hr], hr⟩

/-- C4 witness: the amended theorem applied at `("abc", 1.0)`. -/
theorem hexToKmlColor_fallback_witness :
    hexToKmlColor "abc" 1 = "ffFFFFFF" :=
  ((hexToKmlColor_fallback "abc" 1 (by decide)).1).trans
    (by rw [alpha_one]; decide)

/-- C5 counterexample: the alpha channel is not clamped (nor rounded): at
opacity 2 the alpha becomes `int(2 * 255) = 510`, formatted as the 3-digit
`"1fe"`, so the output has 9 characters, not 8. -/
theorem hexToKmlColor_opacity_two_malformed :
    (hexToKmlColor "#ff0000" 2).toList.length = 9 ∧
    hexToKmlColor "#ff0000" 2 = "1fe0000ff" := by
  have h : hexToKmlColor "#ff0000" 2 = fmt02x 510 ++ rgbPart "#ff0000" := by
    rw [hexToKmlColor_eq, alpha_two]
  exact ⟨by rw [h]; decide, by rw [h]; decide⟩

/-- C5 (amended): the alpha channel is `int(opacity * 255)` — truncation
toward zero, with no clamping and no rounding.  For every colour string and
every opacity in `[0,1]` the alpha lies in `[0,255]`, is formatted as exactly
2 lowercase hex digits, and the whole result is a well-formed 8-character
string; outside `[0,1]` the output can be malformed (see the
counterexample). -/
theorem hexToKmlColor_wellformed (s : String) (op : ℚ) (h0 : 0 ≤ op)
    (h1 : op ≤ 1) :
    0 ≤ pyIntOfRat (op * 255) ∧ pyIntOfRat (op * 255) ≤ 255 ∧
    (fmt02x (pyIntOfRat (op * 255))).toList.length = 2 ∧
    (fmt02x (pyIntOfRat (op * 255))).toList.all isLowerHexChar = true ∧
    (hexToKmlColor s op).toList.length = 8 := by
  obtain ⟨ha0, ha255⟩ := alpha_bounds h0 h1
  obtain ⟨hflen, hfhex⟩ := fmt02x_bounds ha0 ha255
  refine ⟨ha0, ha255, hflen, hfhex, ?_⟩
  rw [hexToKmlColor_eq, toList_append, List.length_append, hflen,
    rgbPart_length]

/-- C5 witness: the amended theorem applied at `("#ff0000", 0.5)`. -/
theorem hexToKmlColor_wellformed_witness :
    0 ≤ pyIntOfRat ((1 / 2 : ℚ) * 255) ∧
    pyIntOfRat ((1 / 2 : ℚ) * 255) ≤ 255 ∧
    (hexToKmlColor "#ff0000" (1 / 2)).toList.length = 8 :=
  ⟨(hexToKmlColor_wellformed "#ff0000" (1 / 2) (by norm_num) (by norm_num)).1,
   (hexToKmlColor_wellformed "#ff0000" (1 / 2) (by norm_num) (by norm_num)).2.1,
   (hexToKmlColor_wellformed "#ff0000" (1 / 2) (by norm_num) (by norm_num)).2.2.2.2⟩

/-! ## Ring-closing lemmas -/

theorem getLastq_cons_eq {α : Type} (a : α) (l : List α) :
    (a :: l).getLast? = some (l.getLastD a) := by
  induction l generalizing a with
  | nil => rfl
  | cons b l ih => rw [List.getLast?_cons_cons, ih, List.getLastD_cons]

theorem closeRing_cons_closed {a : Coord} {rest : Ring}
    (hc : rest.getLastD a = a) : closeRing (a :: rest) = a :: rest := by
  rw [closeRing]
  exact if_pos hc

theorem closeRing_cons_open {a : Coord} {rest : Ring}
    (hc : ¬ rest.getLastD a = a) :
    closeRing (a :: rest) = (a :: rest) ++ [a] := by
  rw [closeRing]
  exact if_neg hc

theorem closeRing_closed {r : Ring} (h : r ≠ []) :
    (closeRing r).head? = (closeRing r).getLast? := by
  match r with
  | a :: rest =>
    by_cases hc : rest.getLastD a = a
    · rw [closeRing_cons_closed hc, getLastq_cons_eq, hc]
      rfl
    · rw [closeRing_cons_open hc, List.getLast?_concat, List.cons_append]
      rfl

theorem closeRing_of_closed {r : Ring} (hne : r ≠ [])
    (h : r.head? = r.getLast?) : closeRing r = r := by
  match r with
  | a :: rest =>
    rw [getLastq_cons_eq] at h
    exact closeRing_cons_closed (Option.some.inj h).symm

theorem closeRing_idem (r : Ring) : closeRing (closeRing r) = closeRing r := by
  match r with
  | [] => rfl
  | a :: rest =>
    by_cases hc : rest.getLastD a = a
    · rw [closeRing_cons_closed hc, closeRing_cons_closed hc]
    · rw [closeRing_cons_open hc, List.cons_append]
      refine closeRing_cons_closed ?_
      rw [List.getLastD_eq_getLast? a (rest ++ [a]), List.getLast?_concat]
      rfl

theorem closeRing_sub {r : Ring} {c : Coord} (h : c ∈ closeRing r) : c ∈ r := by
  match r with
  | [] => exact absurd h (by simp [closeRing])
  | a :: rest =>
    by_cases hc : rest.getLastD a = a
    · rwa [closeRing_cons_closed hc] at h
    · rw [closeRing_cons_open hc] at h
      rcases List.mem_append.mp h with h | h
      · exact h
      · rw [List.mem_singleton.mp h]
        exact List.mem_cons_self a rest

theorem writeRing_elim {buf out : List String} {r r' : Ring}
    (h : writeRing buf r = some (out, r')) :
    r' = closeRing r ∧
    ∃ ls, mapMO coordLine (closeRing r) = some ls ∧
      out = buf ++ ["            <coordinates>"] ++ ls ++
        ["            </coordinates>"] := by
  cases r with
  | nil => simp [writeRing] at h
  | cons a rest =>
    rw [writeRing] at h
    rw [show (if rest.getLastD a = a then a :: rest else (a :: rest) ++ [a]) =
        closeRing (a :: rest) from rfl] at h
    split at h
    · exact absurd h (by simp)
    · rename_i ls hm
      obtain ⟨h1, h2⟩ := Prod.mk.injEq .. ▸ Option.some.inj h
      exact ⟨h2.symm, ls, hm, h1.symm⟩

/-- C6: for every non-empty ring, the closed form has first = last,
closing is idempotent, an already-closed ring is returned unchanged, and
whenever `_write_ring` succeeds the ring it serializes between the
`<coordinates>` delimiters is exactly the closed form. -/
theorem closeRing_spec (r : Ring) (h : r ≠ []) :
    (closeRing r).head? = (closeRing r).getLast? ∧
    closeRing (closeRing r) = closeRing r ∧
    (r.head? = r.getLast? → closeRing r = r) ∧
    (∀ buf out r', writeRing buf r = some (out, r') →
      r' = closeRing r ∧
      ∃ ls, mapMO coordLine (closeRing r) = some ls ∧
        out = buf ++ ["            <coordinates>"] ++ ls ++
          ["            </coordinates>"]) :=
  ⟨closeRing_closed h, closeRing_idem r, closeRing_of_closed h,
   fun _ _ _ hw => writeRing_elim hw⟩

/-- C6 witness: `closeRing_spec` at the unclosed ring `[(0,0), (1,1)]`. -/
theorem closeRing_spec_witness :
    (closeRing [[0, 0], [1, 1]]).head? = (closeRing [[0, 0], [1, 1]]).getLast? ∧
    closeRing (closeRing [[0, 0], [1, 1]]) = closeRing [[0, 0], [1, 1]] :=
  ⟨(closeRing_spec [[0, 0], [1, 1]] (by decide)).1,
   (closeRing_spec [[0, 0], [1, 1]] (by decide)).2.1⟩

/-- C7 counterexample: `_write_ring` mutates the caller's data.  For the
unclosed ring `[(0,0), (1,1)]` the ring list after the call is
`[(0,0), (1,1), (0,0)]` — the first vertex has been appended in place — and
differs from the ring the caller supplied. -/
theorem writeRing_mutates_concrete :
    writeRing [] [[0, 0], [1, 1]] =
      some (["            <coordinates>",
             "              0,0,0",
             "              1,1,0",
             "              0,0,0",
             "            </coordinates>"],
            [[0, 0], [1, 1], [0, 0]]) ∧
    ([[0, 0], [1, 1], [0, 0]] : Ring) ≠ [[0, 0], [1, 1]] :=
  ⟨by decide, by decide⟩

/-- C7 (amended): `_write_ring` closes rings by in-place mutation, not
copy-on-write — after a successful call the caller's ring value is unchanged
when it was already closed, and has the first vertex appended (so differs
from the supplied ring) when it was unclosed. -/
theorem writeRing_mutation (buf out : List String) (a : Coord)
    (rest r' : Ring) (h : writeRing buf (a :: rest) = some (out, r')) :
    ((a :: rest).head? = (a :: rest).getLast? → r' = a :: rest) ∧
    ((a :: rest).head? ≠ (a :: rest).getLast? →
      r' = (a :: rest) ++ [a] ∧ r' ≠ a :: rest) := by
  have hr := (writeRing_elim h).1
  constructor
  · intro hcl
    rw [hr]
    exact closeRing_of_closed (by simp) hcl
  · intro hop
    rw [getLastq_cons_eq] at hop
    have hc : ¬ rest.getLastD a = a := fun e => hop (by rw [e]; rfl)
    refine ⟨hr.trans (closeRing_cons_open hc), ?_⟩
    intro e
    have := congrArg List.length (e.symm.trans (hr.trans (closeRing_cons_open hc)))
    simp at this

/-- C7 witness: `writeRing_mutation` at the unclosed ring `[(0,0), (1,1)]`:
the caller's list really does change. -/
theorem writeRing_mutation_witness :
    ([[0, 0], [1, 1], [0, 0]] : Ring) = ([[0, 0], [1, 1]] : Ring) ++ [[0, 0]] ∧
    ([[0, 0], [1, 1], [0, 0]] : Ring) ≠ [[0, 0], [1, 1]] :=
  (writeRing_mutation []
      ["            <coordinates>", "              0,0,0",
       "              1,1,0", "              0,0,0",
       "            </coordinates>"]
      [0, 0] [[1, 1]] [[0, 0], [1, 1], [0, 0]] (by decide)).2 (by decide)

/-! ## Shapefile base-name sanitisation -/

theorem sanitize_charwise (b : String) :
    pyReplaceChar (pyReplaceChar b '/' '_') ' ' '_' =
      String.mk (b.toList.map (fun c => if c = '/' ∨ c = ' ' then '_' else c)) := by
  unfold pyReplaceChar
  refine congrArg String.mk ?_
  show (b.toList.map fun c => if c = '/' then '_' else c).map
      (fun c => if c = ' ' then '_' else c) = _
  rw [List.map_map]
  refine List.map_congr_left (fun c _ => ?_)
  by_cases h1 : c = '/'
  · simp [h1]
  · by_cases h2 : c = ' ' <;> simp [h1, h2]

theorem sanitizeBase_eq (b : String) :
    sanitizeBase b =
      (if String.mk (b.toList.map
            (fun c => if c = '/' ∨ c = ' ' then '_' else c)) = "" then "parcels"
       else String.mk (b.toList.map
            (fun c => if c = '/' ∨ c = ' ' then '_' else c))) := by
  show (if pyReplaceChar (pyReplaceChar b '/' '_') ' ' '_' = "" then "parcels"
        else pyReplaceChar (pyReplaceChar b '/' '_') ' ' '_') = _
  rw [sanitize_charwise]

/-- C2: the archive produced by `generate_shapefile` has exactly the four
entries `{base}.shp`, `{base}.shx`, `{base}.dbf`, `{base}.prj`, in that
order, where `base` is the input with every `/` and every space replaced by
`_`, defaulting to `"parcels"` when the replaced string is empty.  The
sanitised base is consequently never empty and contains neither `/` nor a
space. -/
theorem generateShapefile_entries (features : List Feature)
    (region baseName : String) :
    (generateShapefile features region baseName).entries =
      [sanitizeBase baseName ++ ".shp", sanitizeBase baseName ++ ".shx",
       sanitizeBase baseName ++ ".dbf", sanitizeBase baseName ++ ".prj"] ∧
    (generateShapefile features region baseName).entries.length = 4 ∧
    sanitizeBase baseName =
      (if String.mk (baseName.toList.map
            (fun c => if c = '/' ∨ c = ' ' then '_' else c)) = "" then "parcels"
       else String.mk (baseName.toList.map
            (fun c => if c = '/' ∨ c = ' ' then '_' else c))) ∧
    (baseName = "" → sanitizeBase baseName = "parcels") ∧
    sanitizeBase baseName ≠ "" ∧
    '/' ∉ (sanitizeBase baseName).toList ∧
    ' ' ∉ (sanitizeBase baseName).toList := by
  refine ⟨rfl, rfl, sanitizeBase_eq baseName, ?_, ?_⟩
  · intro hb
    subst hb
    rfl
  · rw [sanitizeBase_eq]
    split
    · exact ⟨by decide, by decide, by decide⟩
    · rename_i hne
      refine ⟨hne, ?_, ?_⟩
      · intro hmem
        obtain ⟨c, _, hc⟩ := List.mem_map.mp hmem
        split at hc
        · exact absurd hc (by decide)
        · rename_i hcond
          exact hcond (Or.inl hc)
      · intro hmem
        obtain ⟨c, _, hc⟩ := List.mem_map.mp hmem
        split at hc
        · exact absurd hc (by decide)
        · rename_i hcond
          exact hcond (Or.inr hc)

/-- C2 witness: the entries at `base_name = "a/b c"` (sanitised to
`"a_b_c"`), and the `"parcels"` default at the empty base name. -/
theorem generateShapefile_entries_witness :
    (generateShapefile [] "QLD" "a/b c").entries =
      ["a_b_c.shp", "a_b_c.shx", "a_b_c.dbf", "a_b_c.prj"] ∧
    sanitizeBase "" = "parcels" :=
  ⟨((generateShapefile_entries [] "QLD" "a/b c").1).trans (by decide),
   (generateShapefile_entries [] "QLD" "").2.2.2.1 rfl⟩

/-! ## Option-traversal lemmas -/

theorem mapMO_cons_eq {α β : Type} (f : α → Option β) (a : α) (as : List α) :
    mapMO f (a :: as) =
      (f a).bind (fun b => (mapMO f as).bind (fun bs => some (b :: bs))) := rfl

theorem mapMO_isSome {α β : Type} (f : α → Option β) (l : List α)
    (h : ∀ a ∈ l, (f a).isSome) : ∃ bs, mapMO f l = some bs := by
  induction l with
  | nil => exact ⟨[], rfl⟩
  | cons a as ih =>
    obtain ⟨b, hb⟩ := Option.isSome_iff_exists.mp (h a (List.mem_cons_self a as))
    obtain ⟨bs, hbs⟩ := ih (fun x hx => h x (List.mem_cons_of_mem a hx))
    exact ⟨b :: bs, by rw [mapMO_cons_eq, hb, hbs]; rfl⟩

theorem mapMO_mem {α β : Type} {f : α → Option β} {l : List α} {bs : List β}
    (h : mapMO f l = some bs) {b : β} (hb : b ∈ bs) :
    ∃ a ∈ l, f a = some b := by
  induction l generalizing bs with
  | nil =>
    cases Option.some.inj h
    simp at hb
  | cons a as ih =>
    rw [mapMO_cons_eq] at h
    cases hfa : f a with
    | none => rw [hfa] at h; simp at h
    | some b0 =>
      rw [hfa] at h
      cases hrest : mapMO f as with
      | none => rw [hrest] at h; simp at h
      | some bs0 =>
        rw [hrest] at h
        have h2 : b0 :: bs0 = bs := Option.some.inj h
        subst h2
        rcases List.mem_cons.mp hb with hb | hb
        · exact ⟨a, List.mem_cons_self a as, hb ▸ hfa⟩
        · obtain ⟨a', ha', hfa'⟩ := ih hrest hb
          exact ⟨a', List.mem_cons_of_mem a ha', hfa'⟩

/-! ## String character toolkit -/

theorem data_append_left (c x : String) {i : Nat} (h : i < c.data.length) :
    (c ++ x).data[i]? = c.data[i]? := by
  rw [String.data_append]
  exact List.getElem?_append_left h

theorem prefix1_ne (i : Nat) (c x t : String)
    (h : c.data[i]? ≠ t.data[i]?) (hi : i < c.data.length) : c ++ x ≠ t := by
  intro e
  apply h
  rw [← data_append_left c x hi, e]

theorem data_len_le (c x : String) : c.data.length ≤ (c ++ x).data.length := by
  rw [String.data_append, List.length_append]
  omega

theorem prefix2_ne (i : Nat) (c x d t : String)
    (h : c.data[i]? ≠ t.data[i]?) (hi : i < c.data.length) :
    c ++ x ++ d ≠ t := by
  intro e
  apply h
  rw [← data_append_left c x hi,
    ← data_append_left (c ++ x) d (lt_of_lt_of_le hi (data_len_le c x)), e]

theorem prefix4_ne (i : Nat) (c x d y e t : String)
    (h : c.data[i]? ≠ t.data[i]?) (hi : i < c.data.length) :
    c ++ x ++ d ++ y ++ e ≠ t := by
  intro heq
  apply h
  have h1 : i < (c ++ x).data.length := lt_of_lt_of_le hi (data_len_le c x)
  have h2 : i < (c ++ x ++ d).data.length :=
    lt_of_lt_of_le h1 (data_len_le (c ++ x) d)
  have h3 : i < (c ++ x ++ d ++ y).data.length :=
    lt_of_lt_of_le h2 (data_len_le (c ++ x ++ d) y)
  rw [← data_append_left c x hi, ← data_append_left (c ++ x) d h1,
    ← data_append_left (c ++ x ++ d) y h2,
    ← data_append_left (c ++ x ++ d ++ y) e h3, heq]

/-! ## Classification of the KML lines -/

theorem innerLine_ne {l : String} (h : innerLine l) :
    l ≠ "        <Polygon>" ∧ l ≠ "      <MultiGeometry>" ∧
    l ≠ "    <Placemark>" := by
  rcases h with h | h | h | h | h | h | ⟨x, h⟩ <;> subst h
  · exact ⟨by decide, by decide, by decide⟩
  · exact ⟨by decide, by decide, by decide⟩
  · exact ⟨by decide, by decide, by decide⟩
  · exact ⟨by decide, by decide, by decide⟩
  · exact ⟨by decide, by decide, by decide⟩
  · exact ⟨by decide, by decide, by decide⟩
  · exact ⟨prefix1_ne 8 "              " x "        <Polygon>" (by decide)
        (by decide),
      prefix1_ne 6 "              " x "      <MultiGeometry>" (by decide)
        (by decide),
      prefix1_ne 4 "              " x "    <Placemark>" (by decide)
        (by decide)⟩

theorem coordLine_shape {c : Coord} {l : String} (h : coordLine c = some l) :
    ∃ x, l = "              " ++ x := by
  match c with
  | [] => simp [coordLine] at h
  | [_] => simp [coordLine] at h
  | _ :: _ :: _ :: _ => simp [coordLine] at h
  | [x, y] =>
    refine ⟨toString x ++ "," ++ toString y ++ ",0", ?_⟩
    rw [← Option.some.inj h]
    simp [String.append_assoc]

theorem ringLines_classify {r : Ring} {ls : List String}
    (h : ringLines r = some ls) : ∀ l ∈ ls, innerLine l := by
  unfold ringLines at h
  cases hw : writeRing [] r with
  | none => rw [hw] at h; simp at h
  | some p =>
    rw [hw] at h
    have hp : p.1 = ls := Option.some.inj h
    obtain ⟨-, ls0, hm, hout⟩ := writeRing_elim hw
    rw [← hp, hout]
    intro l hl
    simp only [List.nil_append] at hl
    rcases List.mem_append.mp hl with hl | hl
    · rcases List.mem_append.mp hl with hl | hl
      · exact Or.inr (Or.inr (Or.inr (Or.inr (Or.inl
          (List.mem_singleton.mp hl)))))
      · obtain ⟨c, -, hc⟩ := mapMO_mem hm hl
        exact Or.inr (Or.inr (Or.inr (Or.inr (Or.inr (Or.inr
          (coordLine_shape hc))))))
    · exact Or.inr (Or.inr (Or.inr (Or.inr (Or.inr (Or.inl
        (List.mem_singleton.mp hl))))))

theorem holeLines_classify {r : Ring} {ls : List String}
    (h : holeLines r = some ls) : ∀ l ∈ ls, innerLine l := by
  unfold holeLines at h
  cases hr : ringLines r with
  | none => rw [hr] at h; simp at h
  | some rl =>
    rw [hr] at h
    have : "          <innerBoundaryIs><LinearRing>" :: (rl ++
        ["          </LinearRing></innerBoundaryIs>"]) = ls :=
      Option.some.inj h
    rw [← this]
    intro l hl
    rcases List.mem_cons.mp hl with hl | hl
    · exact Or.inr (Or.inr (Or.inl hl))
    · rcases List.mem_append.mp hl with hl | hl
      · exact ringLines_classify hr l hl
      · exact Or.inr (Or.inr (Or.inr (Or.inl (List.mem_singleton.mp hl))))

theorem polygonLines_shape {poly : List Ring} {b : List String}
    (h : polygonLines poly = some b) :
    ∃ mid, b = "        <Polygon>" :: (mid ++ ["        </Polygon>"]) ∧
      ∀ l ∈ mid, innerLine l := by
  match poly with
  | [] => simp [polygonLines] at h
  | outer :: holes =>
    rw [polygonLines] at h
    cases ho : ringLines outer with
    | none => rw [ho] at h; simp at h
    | some ol =>
      rw [ho] at h
      cases hh : mapMO holeLines holes with
      | none => rw [hh] at h; simp at h
      | some hs =>
        rw [hh] at h
        have hb : ["        <Polygon>",
            "          <outerBoundaryIs><LinearRing>"] ++ ol ++
            ["          </LinearRing></outerBoundaryIs>"] ++ hs.flatten ++
            ["        </Polygon>"] = b := Option.some.inj h
        refine ⟨"          <outerBoundaryIs><LinearRing>" :: (ol ++
            ["          </LinearRing></outerBoundaryIs>"] ++ hs.flatten),
          ?_, ?_⟩
        · rw [← hb]
          simp
        · intro l hl
          rcases List.mem_cons.mp hl with hl | hl
          · exact Or.inl hl
          · rcases List.mem_append.mp hl with hl | hl
            · rcases List.mem_append.mp hl with hl | hl
              · exact ringLines_classify ho l hl
              · exact Or.inr (Or.inl (List.mem_singleton.mp hl))
            · obtain ⟨hls, hhl, hlin⟩ := List.mem_flatten.mp hl
              obtain ⟨r', -, hr'⟩ := mapMO_mem hh hhl
              exact holeLines_classify hr' l hlin

theorem polygonLines_facts {poly : List Ring} {b : List String}
    (h : polygonLines poly = some b) :
    b.countP (fun l => l = "        <Polygon>") = 1 ∧
    "      <MultiGeometry>" ∉ b ∧ "    <Placemark>" ∉ b := by
  obtain ⟨mid, hb, hmid⟩ := polygonLines_shape h
  subst hb
  refine ⟨?_, ?_, ?_⟩
  · rw [List.countP_cons, List.countP_append]
    have hm : mid.countP (fun l => l = "        <Polygon>") = 0 := by
      rw [List.countP_eq_zero]
      intro l hl
      simpa using (innerLine_ne (hmid l hl)).1
    rw [hm]
    decide
  · intro hmem
    rcases List.mem_cons.mp hmem with hmem | hmem
    · exact absurd hmem (by decide)
    · rcases List.mem_append.mp hmem with hmem | hmem
      · exact (innerLine_ne (hmid _ hmem)).2.1 rfl
      · exact absurd (List.mem_singleton.mp hmem) (by decide)
  · intro hmem
    rcases List.mem_cons.mp hmem with hmem | hmem
    · exact absurd hmem (by decide)
    · rcases List.mem_append.mp hmem with hmem | hmem
      · exact (innerLine_ne (hmid _ hmem)).2.2 rfl
      · exact absurd (List.mem_singleton.mp hmem) (by decide)

theorem blocks_facts {polys : List (List Ring)} {pls : List (List String)}
    (h : mapMO polygonLines polys = some pls) :
    pls.flatten.countP (fun l => l = "        <Polygon>") = polys.length ∧
    "      <MultiGeometry>" ∉ pls.flatten ∧ "    <Placemark>" ∉ pls.flatten := by
  induction polys generalizing pls with
  | nil =>
    cases Option.some.inj h
    exact ⟨rfl, by simp, by simp⟩
  | cons p ps ih =>
    rw [mapMO_cons_eq] at h
    cases hp : polygonLines p with
    | none => rw [hp] at h; simp at h
    | some b =>
      rw [hp] at h
      cases hps : mapMO polygonLines ps with
      | none => rw [hps] at h; simp at h
      | some bs =>
        rw [hps] at h
        cases Option.some.inj h
        obtain ⟨hc, hm, hpm⟩ := polygonLines_facts hp
        obtain ⟨hc', hm', hpm'⟩ := ih hps
        refine ⟨?_, ?_, ?_⟩
        · rw [List.flatten_cons, List.countP_append, hc, hc']
          simp [Nat.add_comm]
        · rw [List.flatten_cons]
          intro hmem
          rcases List.mem_append.mp hmem with hmem | hmem
          · exact hm hmem
          · exact hm' hmem
        · rw [List.flatten_cons]
          intro hmem
          rcases List.mem_append.mp hmem with hmem | hmem
          · exact hpm hmem
          · exact hpm' hmem

theorem geometryLines_spec {geom : Geometry} {ls : List String}
    (h : geometryLines geom = some ls) :
    ls.countP (fun l => l = "        <Polygon>") = (featPolygons geom).length ∧
    ("      <MultiGeometry>" ∈ ls ↔ 1 < (featPolygons geom).length) ∧
    "    <Placemark>" ∉ ls := by
  rw [geometryLines] at h
  cases hm : mapMO polygonLines (featPolygons geom) with
  | none => rw [hm] at h; simp at h
  | some pls =>
    rw [hm] at h
    replace h : (if (featPolygons geom).length > 1
        then (some (["      <MultiGeometry>"] ++ pls.flatten ++
          ["      </MultiGeometry>"]) : Option (List String))
        else some pls.flatten) = some ls := h
    obtain ⟨hc, hmg, hpm⟩ := blocks_facts hm
    by_cases hlen : (featPolygons geom).length > 1
    · rw [if_pos hlen] at h
      have hls : "      <MultiGeometry>" :: (pls.flatten ++
          ["      </MultiGeometry>"]) = ls := Option.some.inj h
      subst hls
      refine ⟨?_, ?_, ?_⟩
      · rw [List.countP_cons, List.countP_append, hc]
        simp
      · exact ⟨fun _ => hlen, fun _ => List.mem_cons_self _ _⟩
      · intro hmem
        rcases List.mem_cons.mp hmem with hmem | hmem
        · exact absurd hmem (by decide)
        · rcases List.mem_append.mp hmem with hmem | hmem
          · exact hpm hmem
          · exact absurd (List.mem_singleton.mp hmem) (by decide)
    · rw [if_neg hlen] at h
      have hls : pls.flatten = ls := Option.some.inj h
      subst hls
      exact ⟨hc, ⟨fun hmem => absurd hmem hmg, fun hgt => absurd hgt hlen⟩, hpm⟩

theorem placemarkLines_elim {region : String} {feat : Feature}
    {pl : List String} (h : placemarkLines region feat = some pl) :
    ∃ gl, geometryLines feat.geometry = some gl ∧
      pl = "    <Placemark>" ::
        ("      <name>" ++ htmlEscape (featureName region feat.properties) ++
          "</name>") ::
        "      <styleUrl>#parcel</styleUrl>" ::
        ("      <description>" ++
          ("<![CDATA[<table>" ++ descRows feat.properties ++ "</table>]]>") ++
          "</description>") ::
        (gl ++ ["    </Placemark>"]) := by
  rw [placemarkLines] at h
  cases hg : geometryLines feat.geometry with
  | none =>
    rw [hg] at h
    exact Option.noConfusion (show (none : Option (List String)) = some pl from h)
  | some gl =>
    rw [hg] at h
    exact ⟨gl, rfl, (Option.some.inj h).symm⟩

theorem placemarkLines_facts {region : String} {feat : Feature}
    {pl : List String} (h : placemarkLines region feat = some pl) :
    pl.countP (fun l => l = "    <Placemark>") = 1 ∧
    pl.countP (fun l => l = "        <Polygon>") =
      (featPolygons feat.geometry).length ∧
    ("      <MultiGeometry>" ∈ pl ↔ 1 < (featPolygons feat.geometry).length) := by
  obtain ⟨gl, hg, hpl⟩ := placemarkLines_elim h
  obtain ⟨hc, hmg, hpm⟩ := geometryLines_spec hg
  subst hpl
  have hname_pm : ("      <name>" ++
      htmlEscape (featureName region feat.properties) ++ "</name>") ≠
      "    <Placemark>" :=
    prefix2_ne 4 _ _ _ _ (by decide) (by decide)
  have hdesc_pm : ("      <description>" ++
      ("<![CDATA[<table>" ++ descRows feat.properties ++ "</table>]]>") ++
      "</description>") ≠ "    <Placemark>" :=
    prefix2_ne 4 _ _ _ _ (by decide) (by decide)
  have hname_po : ("      <name>" ++
      htmlEscape (featureName region feat.properties) ++ "</name>") ≠
      "        <Polygon>" :=
    prefix2_ne 6 _ _ _ _ (by decide) (by decide)
  have hdesc_po : ("      <description>" ++
      ("<![CDATA[<table>" ++ descRows feat.properties ++ "</table>]]>") ++
      "</description>") ≠ "        <Polygon>" :=
    prefix2_ne 6 _ _ _ _ (by decide) (by decide)
  have hname_mg : ("      <name>" ++
      htmlEscape (featureName region feat.properties) ++ "</name>") ≠
      "      <MultiGeometry>" :=
    prefix2_ne 7 _ _ _ _ (by decide) (by decide)
  have hdesc_mg : ("      <description>" ++
      ("<![CDATA[<table>" ++ descRows feat.properties ++ "</table>]]>") ++
      "</description>") ≠ "      <MultiGeometry>" :=
    prefix2_ne 7 _ _ _ _ (by decide) (by decide)
  have hglpm : gl.countP (fun l => l = "    <Placemark>") = 0 := by
    rw [List.countP_eq_zero]
    intro l hl
    simp only [decide_eq_true_eq]
    intro he
    exact hpm (he ▸ hl)
  refine ⟨?_, ?_, ?_⟩
  · simp only [List.countP_cons, List.countP_append, hglpm,
      List.countP_nil, decide_eq_true_eq]
    simp [hname_pm, hdesc_pm]
  · simp only [List.countP_cons, List.countP_append, hc,
      List.countP_nil, decide_eq_true_eq]
    simp [hname_po, hdesc_po]
  · constructor
    · intro hmem
      rcases List.mem_cons.mp hmem with hmem | hmem
      · exact absurd hmem.symm (by decide)
      rcases List.mem_cons.mp hmem with hmem | hmem
      · exact absurd hmem.symm hname_mg
      rcases List.mem_cons.mp hmem with hmem | hmem
      · exact absurd hmem.symm (by decide)
      rcases List.mem_cons.mp hmem with hmem | hmem
      · exact absurd hmem.symm hdesc_mg
      rcases List.mem_append.mp hmem with hmem | hmem
      · exact hmg.mp hmem
      · exact absurd (List.mem_singleton.mp hmem) (by decide)
    · intro hlen
      have := hmg.mpr hlen
      exact List.mem_cons_of_mem _ (List.mem_cons_of_mem _
        (List.mem_cons_of_mem _ (List.mem_cons_of_mem _
          (List.mem_append_left _ this))))

theorem generateKmlLines_elim {features : List Feature} {region fh : String}
    {op : ℚ} {oh : String} {w : ℤ} {fn : String} {doc : List String}
    (h : generateKmlLines features region fh op oh w fn = some doc) :
    ∃ pls, mapMO (placemarkLines region) features = some pls ∧
      doc = kmlHeader (hexToKmlColor fh op) (hexToKmlColor oh 1) w fn ++
        pls.flatten ++ ["  </Document></kml>"] := by
  rw [generateKmlLines] at h
  cases hm : mapMO (placemarkLines region) features with
  | none =>
    rw [hm] at h
    exact Option.noConfusion (show (none : Option (List String)) = some doc from h)
  | some pls =>
    rw [hm] at h
    exact ⟨pls, rfl, (Option.some.inj h).symm⟩

theorem pls_facts {region : String} {features : List Feature}
    {pls : List (List String)}
    (h : mapMO (placemarkLines region) features = some pls) :
    pls.flatten.countP (fun l => l = "    <Placemark>") = features.length ∧
    pls.flatten.countP (fun l => l = "        <Polygon>") =
      (features.map (fun f => (featPolygons f.geometry).length)).sum ∧
    ("      <MultiGeometry>" ∈ pls.flatten ↔
      ∃ f ∈ features, 1 < (featPolygons f.geometry).length) := by
  induction features generalizing pls with
  | nil =>
    cases Option.some.inj h
    refine ⟨rfl, rfl, ?_⟩
    simp
  | cons feat fs ih =>
    rw [mapMO_cons_eq] at h
    cases hp : placemarkLines region feat with
    | none => rw [hp] at h; simp at h
    | some pl =>
      rw [hp] at h
      cases hfs : mapMO (placemarkLines region) fs with
      | none => rw [hfs] at h; simp at h
      | some bs =>
        rw [hfs] at h
        cases Option.some.inj h
        obtain ⟨h1, h2, h3⟩ := placemarkLines_facts hp
        obtain ⟨h1', h2', h3'⟩ := ih hfs
        refine ⟨?_, ?_, ?_⟩
        · rw [List.flatten_cons, List.countP_append, h1, h1',
            List.length_cons, Nat.add_comm]
        · rw [List.flatten_cons, List.countP_append, h2, h2', List.map_cons,
            List.sum_cons]
        · rw [List.flatten_cons]
          constructor
          · intro hmem
            rcases List.mem_append.mp hmem with hmem | hmem
            · exact ⟨feat, List.mem_cons_self feat fs, h3.mp hmem⟩
            · obtain ⟨f, hf, hlen⟩ := h3'.mp hmem
              exact ⟨f, List.mem_cons_of_mem feat hf, hlen⟩
          · rintro ⟨f, hf, hlen⟩
            rcases List.mem_cons.mp hf with hf | hf
            · exact List.mem_append_left _ (h3.mpr (hf ▸ hlen))
            · exact List.mem_append_right _ (h3'.mpr ⟨f, hf, hlen⟩)

theorem header_facts (fk ok : String) (w : ℤ) (fn : String) :
    (kmlHeader fk ok w fn).countP (fun l => l = "    <Placemark>") = 0 ∧
    (kmlHeader fk ok w fn).countP (fun l => l = "        <Polygon>") = 0 ∧
    "      <MultiGeometry>" ∉ kmlHeader fk ok w fn ∧
    (kmlHeader fk ok w fn).countP
      (fun l => l = "    <Style id=\x22parcel\x22>") = 1 := by
  have hdoc_pm : ("  <Document><name>" ++ htmlEscape fn ++ "</name>") ≠
      "    <Placemark>" := prefix2_ne 2 _ _ _ _ (by decide) (by decide)
  have hdoc_po : ("  <Document><name>" ++ htmlEscape fn ++ "</name>") ≠
      "        <Polygon>" := prefix2_ne 2 _ _ _ _ (by decide) (by decide)
  have hdoc_mg : ("  <Document><name>" ++ htmlEscape fn ++ "</name>") ≠
      "      <MultiGeometry>" := prefix2_ne 2 _ _ _ _ (by decide) (by decide)
  have hdoc_st : ("  <Document><name>" ++ htmlEscape fn ++ "</name>") ≠
      "    <Style id=\x22parcel\x22>" :=
    prefix2_ne 2 _ _ _ _ (by decide) (by decide)
  have hls_pm : ("      <LineStyle><color>" ++ ok ++ "</color><width>" ++
      toString w ++ "</width></LineStyle>") ≠ "    <Placemark>" :=
    prefix4_ne 4 _ _ _ _ _ _ (by decide) (by decide)
  have hls_po : ("      <LineStyle><color>" ++ ok ++ "</color><width>" ++
      toString w ++ "</width></LineStyle>") ≠ "        <Polygon>" :=
    prefix4_ne 6 _ _ _ _ _ _ (by decide) (by decide)
  have hls_mg : ("      <LineStyle><color>" ++ ok ++ "</color><width>" ++
      toString w ++ "</width></LineStyle>") ≠ "      <MultiGeometry>" :=
    prefix4_ne 7 _ _ _ _ _ _ (by decide) (by decide)
  have hls_st : ("      <LineStyle><color>" ++ ok ++ "</color><width>" ++
      toString w ++ "</width></LineStyle>") ≠ "    <Style id=\x22parcel\x22>" :=
    prefix4_ne 4 _ _ _ _ _ _ (by decide) (by decide)
  have hps_pm : ("      <PolyStyle><color>" ++ fk ++ "</color></PolyStyle>") ≠
      "    <Placemark>" := prefix2_ne 4 _ _ _ _ (by decide) (by decide)
  have hps_po : ("      <PolyStyle><color>" ++ fk ++ "</color></PolyStyle>") ≠
      "        <Polygon>" := prefix2_ne 6 _ _ _ _ (by decide) (by decide)
  have hps_mg : ("      <PolyStyle><color>" ++ fk ++ "</color></PolyStyle>") ≠
      "      <MultiGeometry>" := prefix2_ne 7 _ _ _ _ (by decide) (by decide)
  have hps_st : ("      <PolyStyle><color>" ++ fk ++ "</color></PolyStyle>") ≠
      "    <Style id=\x22parcel\x22>" :=
    prefix2_ne 4 _ _ _ _ (by decide) (by decide)
  refine ⟨?_, ?_, ?_, ?_⟩
  · simp only [kmlHeader, List.countP_cons, List.countP_nil,
      decide_eq_true_eq]
    simp [hdoc_pm, hls_pm, hps_pm]
  · simp only [kmlHeader, List.countP_cons, List.countP_nil,
      decide_eq_true_eq]
    simp [hdoc_po, hls_po, hps_po]
  · intro hmem
    simp only [kmlHeader, List.mem_cons, List.not_mem_nil, or_false] at hmem
    rcases hmem with h | h | h | h | h | h | h
    · exact absurd h (by decide)
    · exact absurd h (by decide)
    · exact hdoc_mg h.symm
    · exact absurd h (by decide)
    · exact hls_mg h.symm
    · exact hps_mg h.symm
    · exact absurd h (by decide)
  · simp only [kmlHeader, List.countP_cons, List.countP_nil,
      decide_eq_true_eq]
    simp [hdoc_st, hls_st, hps_st]

theorem generateKmlLines_facts {features : List Feature} {region fh : String}
    {op : ℚ} {oh : String} {w : ℤ} {fn : String} {doc : List String}
    (h : generateKmlLines features region fh op oh w fn = some doc) :
    doc.countP (fun l => l = "    <Placemark>") = features.length ∧
    doc.countP (fun l => l = "        <Polygon>") =
      (features.map (fun f => (featPolygons f.geometry).length)).sum ∧
    ("      <MultiGeometry>" ∈ doc ↔
      ∃ f ∈ features, 1 < (featPolygons f.geometry).length) := by
  obtain ⟨pls, hm, hdoc⟩ := generateKmlLines_elim h
  obtain ⟨h1, h2, h3⟩ := pls_facts hm
  obtain ⟨hh1, hh2, hh3, -⟩ :=
    header_facts (hexToKmlColor fh op) (hexToKmlColor oh 1) w fn
  subst hdoc
  refine ⟨?_, ?_, ?_⟩
  · rw [List.countP_append, List.countP_append, hh1, h1,
      show (["  </Document></kml>"] : List String).countP
        (fun l => l = "    <Placemark>") = 0 from by decide]
    omega
  · rw [List.countP_append, List.countP_append, hh2, h2,
      show (["  </Document></kml>"] : List String).countP
        (fun l => l = "        <Polygon>") = 0 from by decide]
    omega
  · constructor
    · intro hmem
      rcases List.mem_append.mp hmem with hmem | hmem
      · rcases List.mem_append.mp hmem with hmem | hmem
        · exact absurd hmem hh3
        · exact h3.mp hmem
      · exact absurd (List.mem_singleton.mp hmem) (by decide)
    · intro hex
      exact List.mem_append_left _ (List.mem_append_right _ (h3.mpr hex))

/-! ## Totality of `generate_kml` under the ring-shape precondition -/

theorem coordLine_isSome {c : Coord} (h : c.length = 2) :
    (coordLine c).isSome := by
  match c with
  | [x, y] => exact rfl
  | [] => exact absurd h (by decide)
  | [x] =>
    exfalso
    rw [List.length_cons, List.length_nil] at h
    omega
  | x :: y :: z :: t =>
    exfalso
    rw [List.length_cons, List.length_cons, List.length_cons] at h
    omega

theorem ringLines_isSome {r : Ring} (hne : r ≠ [])
    (hc : ∀ c ∈ r, c.length = 2) : (ringLines r).isSome := by
  match r with
  | a :: rest =>
    obtain ⟨ls, hls⟩ := mapMO_isSome coordLine (closeRing (a :: rest))
      (fun c hcin => coordLine_isSome (hc c (closeRing_sub hcin)))
    unfold ringLines
    rw [writeRing,
      show (if rest.getLastD a = a then a :: rest else (a :: rest) ++ [a]) =
        closeRing (a :: rest) from rfl, hls]
    rfl

theorem holeLines_isSome {r : Ring} (hne : r ≠ [])
    (hc : ∀ c ∈ r, c.length = 2) : (holeLines r).isSome := by
  obtain ⟨rl, hrl⟩ := Option.isSome_iff_exists.mp (ringLines_isSome hne hc)
  rw [holeLines, hrl]
  rfl

theorem polygonLines_isSome {poly : List Ring} (hpne : poly ≠ [])
    (hr : ∀ r ∈ poly, r ≠ [] ∧ ∀ c ∈ r, c.length = 2) :
    (polygonLines poly).isSome := by
  match poly with
  | outer :: holes =>
    obtain ⟨ol, hol⟩ := Option.isSome_iff_exists.mp
      (ringLines_isSome (hr outer (List.mem_cons_self _ _)).1
        (hr outer (List.mem_cons_self _ _)).2)
    obtain ⟨hs, hhs⟩ := mapMO_isSome holeLines holes
      (fun h hh => holeLines_isSome (hr h (List.mem_cons_of_mem _ hh)).1
        (hr h (List.mem_cons_of_mem _ hh)).2)
    rw [polygonLines, hol, hhs]
    rfl

theorem geometryLines_isSome {g : Geometry}
    (h : ∀ poly ∈ featPolygons g, poly ≠ [] ∧
      ∀ r ∈ poly, r ≠ [] ∧ ∀ c ∈ r, c.length = 2) :
    (geometryLines g).isSome := by
  obtain ⟨pls, hpls⟩ := mapMO_isSome polygonLines (featPolygons g)
    (fun poly hp => polygonLines_isSome (h poly hp).1 (h poly hp).2)
  have hrw : geometryLines g =
      (if (featPolygons g).length > 1
       then some (["      <MultiGeometry>"] ++ pls.flatten ++
         ["      </MultiGeometry>"])
       else some pls.flatten) := by
    rw [geometryLines, hpls]
    rfl
  rw [hrw]
  split <;> rfl

theorem placemarkLines_isSome {region : String} {feat : Feature}
    (h : ∀ poly ∈ featPolygons feat.geometry, poly ≠ [] ∧
      ∀ r ∈ poly, r ≠ [] ∧ ∀ c ∈ r, c.length = 2) :
    (placemarkLines region feat).isSome := by
  obtain ⟨gl, hgl⟩ := Option.isSome_iff_exists.mp (geometryLines_isSome h)
  rw [placemarkLines, hgl]
  rfl

/-- C9 counterexample: the claimed precondition speaks only about the
*rings* of a geometry, but a polygon with *no rings at all* satisfies it
vacuously and still raises: `generate_kml` indexes `poly[0]`.  A `Polygon`
geometry with an empty `coordinates` list is such an input. -/
theorem generateKml_vacuous_rings_raises :
    ringsOk (Geometry.polygon []) ∧
    generateKml [⟨[], Geometry.polygon []⟩] "QLD" "#ff0000" 1 "#000000" 2
      "Parcels" = none := by
  constructor
  · intro poly hpoly r hr
    simp only [featPolygons, List.mem_singleton] at hpoly
    subst hpoly
    simp at hr
  · rfl

/-- C9 (amended): `generate_kml` returns normally on every feature list in
which every polygon of every geometry has at least one ring, every ring is
non-empty, and every coordinate position has exactly two components.  (The
claim's precondition must additionally exclude polygons with no rings:
`poly[0]` is indexed per polygon, not per ring.) -/
theorem generateKml_total (features : List Feature) (region fh : String)
    (op : ℚ) (oh : String) (w : ℤ) (fn : String)
    (h : ∀ feat ∈ features, ringsOk feat.geometry ∧
      ∀ poly ∈ featPolygons feat.geometry, poly ≠ []) :
    (generateKml features region fh op oh w fn).isSome := by
  obtain ⟨pls, hpls⟩ := mapMO_isSome (placemarkLines region) features
    (fun feat hf => placemarkLines_isSome
      (fun poly hp => ⟨(h feat hf).2 poly hp, (h feat hf).1 poly hp⟩))
  rw [generateKml, generateKmlLines, hpls]
  rfl

/-- C9 witness: `generateKml_total` at a one-feature list holding a single
triangle ring. -/
theorem generateKml_total_witness :
    (generateKml [⟨[], Geometry.polygon [[[0, 0], [1, 0], [0, 1]]]⟩] "QLD"
      "#ff0000" 1 "#000000" 2 "Parcels").isSome :=
  generateKml_total [⟨[], Geometry.polygon [[[0, 0], [1, 0], [0, 1]]]⟩]
    "QLD" "#ff0000" 1 "#000000" 2 "Parcels"
    (by
      intro feat hf
      cases List.mem_singleton.mp hf
      constructor
      · unfold ringsOk
        decide
      · decide)

/-- C1: a `MultiPolygon` feature with 2 polygons of 1 ring each yields, in
the KML output, a `<MultiGeometry>` wrapper holding exactly 2 `<Polygon>`
blocks; in general, `generate_kml` wraps in `<MultiGeometry>` exactly when a
feature has more than one polygon, and the number of emitted `<Polygon>`
elements always equals the number of polygons.  `generate_shapefile` writes
exactly one shape for the feature, whose parts list is the 2-element
flattening of the rings of the constituent polygons in order. -/
theorem multiPolygon_encoding (props : List (String × String)) (r1 r2 : Ring)
    (region fh oh fn bn : String) (op : ℚ) (w : ℤ)
    (h1 : r1 ≠ []) (h1c : ∀ c ∈ r1, c.length = 2)
    (h2 : r2 ≠ []) (h2c : ∀ c ∈ r2, c.length = 2) :
    (∃ b1 b2, polygonLines [r1] = some b1 ∧ polygonLines [r2] = some b2 ∧
      geometryLines (Geometry.multiPolygon [[r1], [r2]]) =
        some (["      <MultiGeometry>"] ++
          ([b1, b2] : List (List String)).flatten ++
          ["      </MultiGeometry>"]) ∧
      b1.countP (fun l => l = "        <Polygon>") = 1 ∧
      b2.countP (fun l => l = "        <Polygon>") = 1) ∧
    (∀ geom ls, geometryLines geom = some ls →
      (("      <MultiGeometry>" ∈ ls) ↔ 1 < (featPolygons geom).length) ∧
      ls.countP (fun l => l = "        <Polygon>") =
        (featPolygons geom).length) ∧
    (∃ doc, generateKmlLines [⟨props, Geometry.multiPolygon [[r1], [r2]]⟩]
        region fh op oh w fn = some doc ∧
      doc.countP (fun l => l = "        <Polygon>") = 2 ∧
      "      <MultiGeometry>" ∈ doc) ∧
    ((generateShapefile [⟨props, Geometry.multiPolygon [[r1], [r2]]⟩]
        region bn).shapes = [[r1, r2]] ∧
      shapeParts (Geometry.multiPolygon [[r1], [r2]]) = [r1, r2] ∧
      ([r1, r2] : List Ring).length = 2 ∧
      ([[r1, r2]] : List (List Ring)).length = 1) := by
  obtain ⟨b1, hb1⟩ := Option.isSome_iff_exists.mp
    (@polygonLines_isSome [r1] (by simp)
      (fun r hr => by cases List.mem_singleton.mp hr; exact ⟨h1, h1c⟩))
  obtain ⟨b2, hb2⟩ := Option.isSome_iff_exists.mp
    (@polygonLines_isSome [r2] (by simp)
      (fun r hr => by cases List.mem_singleton.mp hr; exact ⟨h2, h2c⟩))
  have hm : mapMO polygonLines [[r1], [r2]] = some [b1, b2] := by
    rw [mapMO_cons_eq, hb1, mapMO_cons_eq, hb2]
    rfl
  have hg : geometryLines (Geometry.multiPolygon [[r1], [r2]]) =
      some (["      <MultiGeometry>"] ++
        ([b1, b2] : List (List String)).flatten ++
        ["      </MultiGeometry>"]) := by
    rw [geometryLines,
      show featPolygons (Geometry.multiPolygon [[r1], [r2]]) = [[r1], [r2]]
        from rfl, hm]
    rfl
  refine ⟨⟨b1, b2, hb1, hb2, hg, (polygonLines_facts hb1).1,
      (polygonLines_facts hb2).1⟩,
    fun geom ls hgl =>
      ⟨(geometryLines_spec hgl).2.1, (geometryLines_spec hgl).1⟩,
    ?_, rfl, rfl, rfl, rfl⟩
  obtain ⟨pl, hpl⟩ := Option.isSome_iff_exists.mp
    (@placemarkLines_isSome region ⟨props, Geometry.multiPolygon [[r1], [r2]]⟩
      (fun poly hp => by
        rcases List.mem_cons.mp hp with hp | hp
        · cases hp
          exact ⟨by simp, fun r hr => by
            cases List.mem_singleton.mp hr; exact ⟨h1, h1c⟩⟩
        · cases List.mem_singleton.mp hp
          exact ⟨by simp, fun r hr => by
            cases List.mem_singleton.mp hr; exact ⟨h2, h2c⟩⟩))
  have hm2 : mapMO (placemarkLines region)
      [⟨props, Geometry.multiPolygon [[r1], [r2]]⟩] = some [pl] := by
    rw [mapMO_cons_eq, hpl]
    rfl
  have hdoc : generateKmlLines [⟨props, Geometry.multiPolygon [[r1], [r2]]⟩]
      region fh op oh w fn =
      some (kmlHeader (hexToKmlColor fh op) (hexToKmlColor oh 1) w fn ++
        ([pl] : List (List String)).flatten ++ ["  </Document></kml>"]) := by
    rw [generateKmlLines, hm2]
    rfl
  refine ⟨_, hdoc, ?_, ?_⟩
  · have hcount := (generateKmlLines_facts hdoc).2.1
    simpa [featPolygons] using hcount
  · exact (generateKmlLines_facts hdoc).2.2.mpr
      ⟨⟨props, Geometry.multiPolygon [[r1], [r2]]⟩,
        List.mem_singleton_self _, by simp [featPolygons]⟩

/-- C1 witness: `multiPolygon_encoding` at a concrete two-triangle
`MultiPolygon` feature. -/
theorem multiPolygon_encoding_witness :
    (generateShapefile [⟨[], Geometry.multiPolygon
        [[[[0, 0], [1, 0], [0, 1]]], [[[2, 2], [3, 2], [2, 3]]]]⟩] "QLD"
      "parcels").shapes =
      [[[[0, 0], [1, 0], [0, 1]], [[2, 2], [3, 2], [2, 3]]]] ∧
    (∃ b1 b2,
      polygonLines [[[0, 0], [1, 0], [0, 1]]] = some b1 ∧
      polygonLines [[[2, 2], [3, 2], [2, 3]]] = some b2 ∧
      geometryLines (Geometry.multiPolygon
          [[[[0, 0], [1, 0], [0, 1]]], [[[2, 2], [3, 2], [2, 3]]]]) =
        some (["      <MultiGeometry>"] ++
          ([b1, b2] : List (List String)).flatten ++
          ["      </MultiGeometry>"]) ∧
      b1.countP (fun l => l = "        <Polygon>") = 1 ∧
      b2.countP (fun l => l = "        <Polygon>") = 1) :=
  ⟨(multiPolygon_encoding [] [[0, 0], [1, 0], [0, 1]] [[2, 2], [3, 2], [2, 3]]
      "QLD" "#ff0000" "#000000" "Parcels" "parcels" 1 2 (by decide) (by decide)
      (by decide) (by decide)).2.2.2.1,
   (multiPolygon_encoding [] [[0, 0], [1, 0], [0, 1]] [[2, 2], [3, 2], [2, 3]]
      "QLD" "#ff0000" "#000000" "Parcels" "parcels" 1 2 (by decide) (by decide)
      (by decide) (by decide)).1⟩

/-- C10: on the empty feature list `generate_kml` returns normally with the
complete document — XML declaration, `<kml>` root, `<Document>` carrying the
escaped folder name, exactly one style block with id `"parcel"`, and the
closing line — and zero `<Placemark>` elements. -/
theorem generateKml_empty_features (region fh : String) (op : ℚ) (oh : String)
    (w : ℤ) (fn : String) :
    generateKmlLines [] region fh op oh w fn = some
      ["<?xml version=\x221.0\x22 encoding=\x22UTF-8\x22?>",
       "<kml xmlns=\x27http://www.opengis.net/kml/2.2\x27>",
       "  <Document><name>" ++ htmlEscape fn ++ "</name>",
       "    <Style id=\x22parcel\x22>",
       "      <LineStyle><color>" ++ hexToKmlColor oh 1 ++ "</color><width>" ++
         toString w ++ "</width></LineStyle>",
       "      <PolyStyle><color>" ++ hexToKmlColor fh op ++
         "</color></PolyStyle>",
       "    </Style>",
       "  </Document></kml>"] ∧
    generateKml [] region fh op oh w fn = some (String.intercalate "\n"
      (kmlHeader (hexToKmlColor fh op) (hexToKmlColor oh 1) w fn ++
        ["  </Document></kml>"])) ∧
    (kmlHeader (hexToKmlColor fh op) (hexToKmlColor oh 1) w fn ++
      ["  </Document></kml>"]).countP (fun l => l = "    <Placemark>") = 0 ∧
    (kmlHeader (hexToKmlColor fh op) (hexToKmlColor oh 1) w fn ++
      ["  </Document></kml>"]).countP
      (fun l => l = "    <Style id=\x22parcel\x22>") = 1 := by
  obtain ⟨hh1, -, -, hh4⟩ :=
    header_facts (hexToKmlColor fh op) (hexToKmlColor oh 1) w fn
  refine ⟨rfl, rfl, ?_, ?_⟩
  · rw [List.countP_append, hh1,
      show (["  </Document></kml>"] : List String).countP
        (fun l => l = "    <Placemark>") = 0 from by decide]
  · rw [List.countP_append, hh4,
      show (["  </Document></kml>"] : List String).countP
        (fun l => l = "    <Style id=\x22parcel\x22>") = 0 from by decide]

/-- C8 counterexample: in `generate_kml`'s QLD branch the lookups
`p.get("lot")` and `p.get("plan")` carry no default, so a feature whose
properties lack both keys gets the display name `"Lot None Plan None"` —
Python's `None` marker rendered into the name — not `"Lot  Plan "` built
from empty strings; the placemark emitted for such a feature shows it. -/
theorem qld_missing_keys_none_marker :
    featureName "QLD" [] = "Lot None Plan None" ∧
    featureName "QLD" [] ≠ "Lot  Plan " ∧
    placemarkLines "QLD" ⟨[], Geometry.other⟩ = some
      ["    <Placemark>",
       "      <name>Lot None Plan None</name>",
       "      <styleUrl>#parcel</styleUrl>",
       "      <description><![CDATA[<table></table>]]></description>",
       "    </Placemark>"] :=
  ⟨by decide, by decide, by decide⟩

/-- C8 (amended): attribute extraction never fails, but the two paths treat
missing keys differently.  `generate_shapefile` defaults every missing key
to the empty string; `generate_kml` renders missing `lot`/`plan` keys as the
text `None` in the display name, and only the NSW section key is defaulted
to the empty string there. -/
theorem attribute_extraction (p : List (String × String))
    (hlot : pyGet p "lot" = none) (hplan : pyGet p "plan" = none)
    (hsec : pyGet p "sectionnumber" = none) :
    featureName "QLD" p = "Lot None Plan None" ∧
    shpRecord "QLD" p = ("", "", "") ∧
    featureName "NSW" p =
      "Lot " ++ fmtPyOpt (pyGet p "lotnumber") ++ " " ++
        fmtPyOpt (pyGet p "planlabel") ∧
    (shpRecord "NSW" p).2.1 = "" := by
  have hsecd : pyGetD p "sectionnumber" = "" := by
    unfold pyGetD
    rw [hsec]
    rfl
  refine ⟨?_, ?_, ?_, ?_⟩
  · show "Lot " ++ fmtPyOpt (pyGet p "lot") ++ " Plan " ++
      fmtPyOpt (pyGet p "plan") = _
    rw [hlot, hplan]
    decide
  · show (pyGetD p "lot", "", pyGetD p "plan") = _
    unfold pyGetD
    rw [hlot, hplan]
    rfl
  · show "Lot " ++ fmtPyOpt (pyGet p "lotnumber") ++ " " ++
      (if pyGetD p "sectionnumber" ≠ "" then
        "Section " ++ pyGetD p "sectionnumber" ++ " " else "") ++
      fmtPyOpt (pyGet p "planlabel") = _
    rw [hsecd, if_neg (by decide), String.append_empty]
  · show pyGetD p "sectionnumber" = ""
    exact hsecd

/-- C8 witness: `attribute_extraction` at a property bag lacking `lot`,
`plan` and `sectionnumber`. -/
theorem attribute_extraction_witness :
    featureName "QLD" [("foo", "bar")] = "Lot None Plan None" ∧
    shpRecord "QLD" [("foo", "bar")] = ("", "", "") :=
  ⟨(attribute_extraction [("foo", "bar")] (by decide) (by decide)
      (by decide)).1,
   (attribute_extraction [("foo", "bar")] (by decide) (by decide)
      (by decide)).2.1⟩

end KmlUtils
